import Mathlib

/-!
Verification development for the nereid image-transformation module
(`static_file.py`).  Python strings are embedded as `List Char`, Python
integers as `Int`, image content as width/height plus an operation trace.
Each function below mirrors one Python function of the source (or, where
explicitly noted, models the behaviour of an external library used by the
source).
-/

set_option maxRecDepth 4096

deriving instance DecidableEq for Except

/-- A Python string, embedded as its list of characters. -/
abbrev PyStr := List Char

/-- Turn a Lean string literal into the embedded representation. -/
def pystr (s : String) : PyStr := s.data

/-- `s.split(c)` for a one-character separator: Python `str.split` with a
separator argument keeps empty pieces, so the result is never the empty
list. -/
def splitOnChar (c : Char) : List Char → List (List Char)
  | [] => [[]]
  | x :: xs =>
    let r := splitOnChar c xs
    if x = c then [] :: r
    else
      match r with
      | [] => [[x]]
      | y :: ys => (x :: y) :: ys

/-- `s.split(c, 1)` when the separator occurs: the text before the first
occurrence and the text after it; `none` when the separator is absent
(where Python raises `ValueError` on unpacking). -/
def splitFirstChar (c : Char) : List Char → Option (List Char × List Char)
  | [] => none
  | x :: xs =>
    if x = c then some ([], xs)
    else
      match splitFirstChar c xs with
      | none => none
      | some (a, b) => some (x :: a, b)

/-- `sep.join(pieces)` for a one-character separator. -/
def joinChar (c : Char) : List (List Char) → List Char
  | [] => []
  | [s] => s
  | s :: rest => s ++ c :: joinChar c rest

/-- The value of a hexadecimal digit, upper or lower case. -/
def hexVal (c : Char) : Option Nat :=
  if '0' ≤ c ∧ c ≤ '9' then some (c.toNat - '0'.toNat)
  else if 'a' ≤ c ∧ c ≤ 'f' then some (c.toNat - 'a'.toNat + 10)
  else if 'A' ≤ c ∧ c ≤ 'F' then some (c.toNat - 'A'.toNat + 10)
  else none

/-- One piece of `urllib2.unquote` after splitting on `%`: decode a leading
two-digit hex escape, or restore the `%` verbatim. -/
def unquotePart (p : PyStr) : PyStr :=
  match p with
  | a :: b :: rest =>
    match hexVal a, hexVal b with
    | some x, some y => Char.ofNat (16 * x + y) :: rest
    | _, _ => '%' :: a :: b :: rest
  | _ => '%' :: p

/-- `urllib2.unquote`: split on `%` and decode each two-digit hex escape,
leaving invalid escapes untouched. -/
def unquote (s : PyStr) : PyStr :=
  match splitOnChar '%' s with
  | [] => s
  | first :: rest => first ++ (rest.map unquotePart).foldr (· ++ ·) []

/-- Decimal digits of a natural number, most significant first; `fuel`
bounds the recursion and is always sufficient at `n + 1`. -/
def natCharsAux : Nat → Nat → List Char → List Char
  | 0, _, acc => acc
  | fuel + 1, n, acc =>
    if n < 10 then Char.ofNat (48 + n % 10) :: acc
    else natCharsAux fuel (n / 10) (Char.ofNat (48 + n % 10) :: acc)

/-- Decimal representation of a natural number, as Python `str` writes it. -/
def natChars (n : Nat) : PyStr := natCharsAux (n + 1) n []

/-- Python `str(i)` for an integer: an optional minus sign and decimal
digits. -/
def intChars (i : Int) : PyStr :=
  if i < 0 then '-' :: natChars i.natAbs else natChars i.natAbs

/-- Whitespace as stripped by Python `int()`. -/
def isPySpace (c : Char) : Bool :=
  c = ' ' ∨ c = '\t' ∨ c = '\n' ∨ c = '\r' ∨ c = '\x0b' ∨ c = '\x0c'

/-- Numeric value of a nonempty all-digit character list, or `none`. -/
def digitsVal : PyStr → Option Nat
  | [] => none
  | ds =>
    if ds.all (fun c => c.isDigit) then
      some (ds.foldl (fun acc c => acc * 10 + (c.toNat - 48)) 0)
    else none

/-- Errors a request can surface.  `abort404` is the only client-error exit
used by the source (`abort(404)`); the others are ordinary uncaught Python
exceptions, i.e. server errors. -/
inductive PyError where
  | abort404
  | valueError
  | keyError
  | typeError
  | attributeError
  | decodeError
  | osError (errno : Nat)
deriving DecidableEq

/-- Python `int(x)` on a string: strip whitespace, allow one sign, then
require at least one decimal digit; otherwise `ValueError`. -/
def pyIntOfStr (s : PyStr) : Except PyError Int :=
  let t := ((s.dropWhile isPySpace).reverse.dropWhile isPySpace).reverse
  match t with
  | '-' :: ds =>
    match digitsVal ds with
    | some n => .ok (-(n : Int))
    | none => .error .valueError
  | '+' :: ds =>
    match digitsVal ds with
    | some n => .ok (n : Int)
    | none => .error .valueError
  | ds =>
    match digitsVal ds with
    | some n => .ok (n : Int)
    | none => .error .valueError

/-- Insert a key/value pair into a Python dict modelled as an ordered
association list: replace in place, or append a new key at the end. -/
def pyDictInsert : List (PyStr × PyStr) → PyStr × PyStr → List (PyStr × PyStr)
  | [], kv => [kv]
  | (k, v) :: rest, kv =>
    if k = kv.1 then (k, kv.2) :: rest else (k, v) :: pyDictInsert rest kv

/-- `dict(pairs)`: fold the pairs in order. -/
def pyDict (l : List (PyStr × PyStr)) : List (PyStr × PyStr) :=
  l.foldl pyDictInsert []

/-- Dict lookup: the value stored under a key, if any. -/
def pyGet (params : List (PyStr × PyStr)) (k : PyStr) : Option PyStr :=
  match params with
  | [] => none
  | (k₂, v) :: rest => if k₂ = k then some v else pyGet rest k

/-- `dict()` accepts an item iff it is a two-element sequence; any other
length raises `ValueError`. -/
def toPair : List PyStr → Option (PyStr × PyStr)
  | [a, b] => some (a, b)
  | _ => none

/-- Run `toPair` over the split tokens, propagating the first failure, as
`dict(map(...))` consumes its iterable. -/
def pairsOf : List (List PyStr) → Option (List (PyStr × PyStr))
  | [] => some []
  | x :: xs =>
    match toPair x, pairsOf xs with
    | some p, some ps => some (p :: ps)
    | _, _ => none

/-- `TransformationCommand.parse_command`: unquote, split at the first
comma into operation and parameter text (`abort(404)` when there is no
comma), split the parameter text on commas, split every token on every
underscore, and build a dict — where `dict()` raises `ValueError` on a
token that did not split into exactly two parts. -/
def parse_command (command : PyStr) : Except PyError (PyStr × List (PyStr × PyStr)) :=
  let cmd := unquote command
  match splitFirstChar ',' cmd with
  | none => .error .abort404
  | some (operation, params) =>
    match pairsOf ((splitOnChar ',' params).map (splitOnChar '_')) with
    | some ps => .ok (operation, pyDict ps)
    | none => .error .valueError

/-- `TransformationCommand`: an appendable list of serialized command
segments. -/
structure TransformationCommand where
  commands : List PyStr
deriving DecidableEq

/-- `str(c)`: the segments joined by `/`. -/
def TransformationCommand.render (c : TransformationCommand) : PyStr :=
  joinChar '/' c.commands

/-- `TransformationCommand.thumbnail`: append a
`thumbnail,w_<w>,h_<h>[,m_<mode>]` segment, the `m` token only when the
mode string is truthy (nonempty). -/
def TransformationCommand.thumbnail (c : TransformationCommand)
    (width height : Int) (mode : PyStr) : TransformationCommand :=
  let arguments := [pystr "thumbnail", pystr "w_" ++ intChars width,
    pystr "h_" ++ intChars height]
  let arguments := if mode = [] then arguments else arguments ++ [pystr "m_" ++ mode]
  ⟨c.commands ++ [joinChar ',' arguments]⟩

/-- `TransformationCommand.resize`: append a `resize,...` segment. -/
def TransformationCommand.resize (c : TransformationCommand)
    (width height : Int) (mode : PyStr) : TransformationCommand :=
  let arguments := [pystr "resize", pystr "w_" ++ intChars width,
    pystr "h_" ++ intChars height]
  let arguments := if mode = [] then arguments else arguments ++ [pystr "m_" ++ mode]
  ⟨c.commands ++ [joinChar ',' arguments]⟩

/-- `TransformationCommand.fit`: append a `fit,...` segment. -/
def TransformationCommand.fit (c : TransformationCommand)
    (width height : Int) (mode : PyStr) : TransformationCommand :=
  let arguments := [pystr "fit", pystr "w_" ++ intChars width,
    pystr "h_" ++ intChars height]
  let arguments := if mode = [] then arguments else arguments ++ [pystr "m_" ++ mode]
  ⟨c.commands ++ [joinChar ',' arguments]⟩

/-- The PIL resample filters named by `FILTER_MAP` in the source. -/
inductive PILFilter where
  | NEAREST
  | BILINEAR
  | BICUBIC
  | ANTIALIAS
deriving DecidableEq

/-- `FILTER_MAP` from the source: filter codes to PIL filters; the empty
code also maps to `NEAREST`. -/
def FILTER_MAP : List (PyStr × PILFilter) :=
  [([], .NEAREST), (pystr "n", .NEAREST), (pystr "b", .BILINEAR),
   (pystr "c", .BICUBIC), (pystr "a", .ANTIALIAS)]

/-- `FILTER_MAP[m]`: a missing key raises `KeyError`. -/
def filterLookup (m : PyStr) : Except PyError PILFilter :=
  match FILTER_MAP.find? (fun kv => kv.1 = m) with
  | some kv => .ok kv.2
  | none => .error .keyError

/-- An in-memory PIL image, modelled by its pixel dimensions plus the
trace of transform operations applied to it (the pixel content itself is
outside the model; two images with the same origin and the same applied
operations are equal). -/
structure Img where
  width : Nat
  height : Nat
  hist : List (PyStr × Int × Int × PILFilter)
deriving DecidableEq

/-- Modelled from the spec: PIL `Image.thumbnail` (external library code,
not under src/) "scales the image in place to fit within (width, height)
preserving aspect ratio, never upscaling beyond the original dimensions".
The scale factor is the smaller of the two target ratios, capped at one;
the floored dimension is kept at least one pixel. -/
def Img.pil_thumbnail (img : Img) (tw th : Int) (f : PILFilter) : Img :=
  let tw2 := tw.toNat
  let th2 := th.toNat
  let wh :=
    if img.width ≤ tw2 ∧ img.height ≤ th2 then (img.width, img.height)
    else if tw2 * img.height ≤ th2 * img.width then
      (tw2, max (img.height * tw2 / img.width) 1)
    else
      (max (img.width * th2 / img.height) 1, th2)
  { width := wh.1, height := wh.2,
    hist := img.hist ++ [(pystr "thumbnail", tw, th, f)] }

/-- Modelled from the spec: PIL `Image.resize` (external library code, not
under src/) "scales to exactly (width, height), ignoring aspect ratio". -/
def Img.pil_resize (img : Img) (tw th : Int) (f : PILFilter) : Img :=
  { width := tw.toNat, height := th.toNat,
    hist := img.hist ++ [(pystr "resize", tw, th, f)] }

/-- Modelled from the spec: PIL `ImageOps.fit` (external library code, not
under src/) "scales and center-crops to exactly (width, height)"; the
cropped pixel window is outside the model. -/
def Img.pil_fit (img : Img) (tw th : Int) (f : PILFilter) : Img :=
  { width := tw.toNat, height := th.toNat,
    hist := img.hist ++ [(pystr "fit", tw, th, f)] }

/-- The binary content of a master file, modelled by what `PIL.Image.open`
would decode from it: the pixel dimensions when the bytes are a recognized
image container, `none` otherwise. -/
structure PyBytes where
  decodesTo : Option (Nat × Nat)
deriving DecidableEq

/-- `PIL.Image.open(BytesIO(bytes))`: decode the master bytes into a fresh
image, raising when the bytes are not a recognized image. -/
def pilImageOpen (b : PyBytes) : Except PyError Img :=
  match b.decodesTo with
  | some wh => .ok ⟨wh.1, wh.2, []⟩
  | none => .error .decodeError

/-- A Python keyword-argument call rejects any key outside the declared
parameter names (`w`, `h`, `m`) with `TypeError`. -/
def kwargsOk (params : List (PyStr × PyStr)) : Prop :=
  ∀ kv ∈ params, kv.1 = pystr "w" ∨ kv.1 = pystr "h" ∨ kv.1 = pystr "m"

instance (params : List (PyStr × PyStr)) : Decidable (kwargsOk params) :=
  List.decidableBAll _ params

/-- Resolve the `w` or `h` keyword: convert the supplied string with
`int()`, or use the integer default `128`. -/
def dimArg (params : List (PyStr × PyStr)) (k : PyStr) : Except PyError Int :=
  match pyGet params k with
  | none => .ok 128
  | some s => pyIntOfStr s

/-- Resolve the `m` keyword: the supplied string or the default `n`. -/
def modeArg (params : List (PyStr × PyStr)) : PyStr :=
  match pyGet params (pystr "m") with
  | none => pystr "n"
  | some s => s

/-- `NereidStaticFile.thumbnail`: `image.thumbnail((int(w), int(h)),
FILTER_MAP[m])` with defaults `w=128, h=128, m='n'`. -/
def nsfThumbnail (image : Img) (params : List (PyStr × PyStr)) : Except PyError Img := do
  let wi ← dimArg params (pystr "w")
  let hi ← dimArg params (pystr "h")
  let f ← filterLookup (modeArg params)
  .ok (image.pil_thumbnail wi hi f)

/-- `NereidStaticFile.resize`: `image.resize((int(w), int(h)),
FILTER_MAP[m])`. -/
def nsfResize (image : Img) (params : List (PyStr × PyStr)) : Except PyError Img := do
  let wi ← dimArg params (pystr "w")
  let hi ← dimArg params (pystr "h")
  let f ← filterLookup (modeArg params)
  .ok (image.pil_resize wi hi f)

/-- `NereidStaticFile.fit`: `ImageOps.fit(image, (int(w), int(h)),
FILTER_MAP[m])`. -/
def nsfFit (image : Img) (params : List (PyStr × PyStr)) : Except PyError Img := do
  let wi ← dimArg params (pystr "w")
  let hi ← dimArg params (pystr "h")
  let f ← filterLookup (modeArg params)
  .ok (image.pil_fit wi hi f)

/-- `NereidStaticFile.allowed_operations`. -/
def allowed_operations : List PyStr :=
  [pystr "resize", pystr "thumbnail", pystr "fit"]

/-- `getattr(self, operation)(image_file, **params)`: reject unexpected
keyword names with `TypeError`, then invoke the method named by
`operation`; a name with no such attribute would raise `AttributeError`
(unreachable behind the `allowed_operations` guard). -/
def dispatchOp (image : Img) (operation : PyStr)
    (params : List (PyStr × PyStr)) : Except PyError Img :=
  if kwargsOk params then
    if operation = pystr "thumbnail" then nsfThumbnail image params
    else if operation = pystr "resize" then nsfResize image params
    else if operation = pystr "fit" then nsfFit image params
    else .error .attributeError
  else .error .typeError

/-- The loop body of `_transform_static_file` over the segments of the
command text: parse each segment, `abort(404)` on an operation outside
`allowed_operations`, otherwise dispatch.  The second component records
which operation methods were actually invoked. -/
def processSegs (image : Img) : List PyStr → Except PyError Img × List PyStr
  | [] => (.ok image, [])
  | c :: rest =>
    match parse_command c with
    | .error e => (.error e, [])
    | .ok (operation, params) =>
      if operation ∈ allowed_operations then
        match dispatchOp image operation params with
        | .error e => (.error e, [operation])
        | .ok image2 =>
          let r := processSegs image2 rest
          (r.1, operation :: r.2)
      else (.error .abort404, [])

/-- One parse-guard-dispatch step, used to state the fold shape of the
pipeline. -/
def segStep (image : Img) (c : PyStr) : Except PyError Img :=
  match parse_command c with
  | .error e => .error e
  | .ok (operation, params) =>
    if operation ∈ allowed_operations then dispatchOp image operation params
    else .error .abort404

/-- `NereidStaticFile._transform_static_file`: open the master bytes once,
apply the slash-separated command segments in order, and save the result
in the requested container format (the saved file is modelled as the
final image paired with the extension). -/
def transform_inner (file_binary : PyBytes) (commands extension : PyStr) :
    Except PyError (Img × PyStr) :=
  match pilImageOpen file_binary with
  | .error e => .error e
  | .ok image =>
    match (processSegs image (splitOnChar '/' commands)).1 with
    | .error e => .error e
    | .ok image2 => .ok (image2, extension)

/-- Outcome of `os.makedirs` on the cache folder. -/
inductive MkdirOutcome where
  | ok
  | oserror (errno : Nat)
deriving DecidableEq

/-- The filesystem and storage state a request observes: the makedirs
outcome, whether the cache file exists and its modification time, the
master record write date (which can be unset), and the master binary. -/
structure RequestCtx where
  mkdirResult : MkdirOutcome
  fileExists : Bool
  fileMtime : Int
  write_date : Option Int
  file_binary : PyBytes
deriving DecidableEq

/-- What the route returns: whether it re-rendered, and the freshly
written file when it did (`none` means the pre-existing cached file was
served unchanged). -/
structure ServeOutcome where
  rendered : Bool
  output : Option (Img × PyStr)
deriving DecidableEq

/-- The freshness test of `transform_static_file`: render when the cache
file is missing, or when the master has a write date and the file
modification time is strictly earlier than it. -/
def renderNeeded (ctx : RequestCtx) : Bool :=
  match (if ctx.fileExists then some ctx.fileMtime else none) with
  | none => true
  | some d =>
    match ctx.write_date with
    | none => false
    | some wd => decide (d < wd)

/-- The part of `transform_static_file` after directory creation: compare
timestamps, re-render when needed, then serve the file. -/
def transform_route_body (ctx : RequestCtx) (commands extension : PyStr) :
    Except PyError ServeOutcome :=
  if renderNeeded ctx then
    match transform_inner ctx.file_binary commands extension with
    | .error e => .error e
    | .ok out => .ok ⟨true, some out⟩
  else .ok ⟨false, none⟩

/-- `NereidStaticFile.transform_static_file`: create the cache folder,
treating `OSError` with errno 17 as success and re-raising any other
`OSError`, then run the freshness check and serve. -/
def transform_route (ctx : RequestCtx) (commands extension : PyStr) :
    Except PyError ServeOutcome :=
  match ctx.mkdirResult with
  | .ok => transform_route_body ctx commands extension
  | .oserror e =>
    if e = 17 then transform_route_body ctx commands extension
    else .error (.osError e)

/-- The extension part of `os.path.splitext` (Python standard library,
modelled from its posix behaviour): the suffix of the last path component
from its last dot, except that dots leading the component never start an
extension. -/
def splitext_ext (p : PyStr) : PyStr :=
  let base := (splitOnChar '/' p).getLastD []
  let rest := base.dropWhile (fun c => c = '.')
  if rest.any (fun c => c = '.') then
    '.' :: (rest.reverse.takeWhile (fun c => c ≠ '.')).reverse
  else []

/-- The extension resolution in `StaticFileTransformationCommand.__init__`:
`extension or os.path.splitext(static_file.name)[1][1:] or 'png'`, with
Python falsiness of `None` and the empty string. -/
def resolved_extension (extension : Option PyStr) (name : PyStr) : PyStr :=
  let e := match extension with | none => [] | some s => s
  if e ≠ [] then e
  else if (splitext_ext name).drop 1 ≠ [] then (splitext_ext name).drop 1
  else pystr "png"

/-- One call made while building a command chain: which method, with which
width, height and mode arguments. -/
inductive BuildStep where
  | thumbnail (w h : Int) (mode : PyStr)
  | resize (w h : Int) (mode : PyStr)
  | fit (w h : Int) (mode : PyStr)
deriving DecidableEq

/-- Apply one builder call to a command object. -/
def applyStep (c : TransformationCommand) : BuildStep → TransformationCommand
  | .thumbnail w h m => c.thumbnail w h m
  | .resize w h m => c.resize w h m
  | .fit w h m => c.fit w h m

/-- Build a chain from scratch by a sequence of calls. -/
def buildChain (steps : List BuildStep) : TransformationCommand :=
  steps.foldl applyStep ⟨[]⟩

/-- The operation name a builder call serializes. -/
def stepOp : BuildStep → PyStr
  | .thumbnail _ _ _ => pystr "thumbnail"
  | .resize _ _ _ => pystr "resize"
  | .fit _ _ _ => pystr "fit"

/-- The width argument of a builder call. -/
def stepW : BuildStep → Int
  | .thumbnail w _ _ => w
  | .resize w _ _ => w
  | .fit w _ _ => w

/-- The height argument of a builder call. -/
def stepH : BuildStep → Int
  | .thumbnail _ h _ => h
  | .resize _ h _ => h
  | .fit _ h _ => h

/-- The mode argument of a builder call. -/
def stepMode : BuildStep → PyStr
  | .thumbnail _ _ m => m
  | .resize _ _ m => m
  | .fit _ _ m => m

/-- The serialized text a builder call appends. -/
def segText (opname : PyStr) (w h : Int) (mode : PyStr) : PyStr :=
  joinChar ','
    ([opname, pystr "w_" ++ intChars w, pystr "h_" ++ intChars h] ++
      if mode = [] then [] else [pystr "m_" ++ mode])

/-- The segment appended by one builder call. -/
def stepSeg (s : BuildStep) : PyStr :=
  segText (stepOp s) (stepW s) (stepH s) (stepMode s)

/-- The operation and parameter map a builder call is expected to parse
back to. -/
def stepExpected (s : BuildStep) : PyStr × List (PyStr × PyStr) :=
  (stepOp s,
    [(pystr "w", intChars (stepW s)), (pystr "h", intChars (stepH s))] ++
      if stepMode s = [] then [] else [(pystr "m", stepMode s)])

/-! ## Helper lemmas on the string embedding -/

theorem pychar_not_mem_cons {c x : Char} {l : PyStr} (h1 : c ≠ x) (h2 : c ∉ l) :
    c ∉ x :: l := by
  intro hm
  rcases List.mem_cons.1 hm with rfl | hm2
  · exact h1 rfl
  · exact h2 hm2

theorem pychar_not_mem_append {c : Char} {a b : PyStr} (h1 : c ∉ a) (h2 : c ∉ b) :
    c ∉ a ++ b := by
  intro hm
  rcases List.mem_append.1 hm with hm2 | hm2
  · exact h1 hm2
  · exact h2 hm2

theorem splitOnChar_eq_single (c : Char) : ∀ s : PyStr, c ∉ s → splitOnChar c s = [s]
  | [], _ => rfl
  | x :: xs, h => by
    have hx : ¬ x = c := fun e => h (e ▸ List.mem_cons_self x xs)
    have ih := splitOnChar_eq_single c xs (fun m => h (List.mem_cons_of_mem x m))
    simp [splitOnChar, hx, ih]

theorem splitOnChar_append (c : Char) : ∀ (xs ys : PyStr), c ∉ xs →
    splitOnChar c (xs ++ c :: ys) = xs :: splitOnChar c ys
  | [], ys, _ => by simp [splitOnChar]
  | x :: xs, ys, h => by
    have hx : ¬ x = c := fun e => h (e ▸ List.mem_cons_self x xs)
    have ih := splitOnChar_append c xs ys (fun m => h (List.mem_cons_of_mem x m))
    simp [splitOnChar, hx, ih]

theorem splitFirstChar_eq_none (c : Char) : ∀ s : PyStr, c ∉ s →
    splitFirstChar c s = none
  | [], _ => rfl
  | x :: xs, h => by
    have hx : ¬ x = c := fun e => h (e ▸ List.mem_cons_self x xs)
    have ih := splitFirstChar_eq_none c xs (fun m => h (List.mem_cons_of_mem x m))
    simp [splitFirstChar, hx, ih]

theorem splitFirstChar_append (c : Char) : ∀ (xs ys : PyStr), c ∉ xs →
    splitFirstChar c (xs ++ c :: ys) = some (xs, ys)
  | [], ys, _ => by simp [splitFirstChar]
  | x :: xs, ys, h => by
    have hx : ¬ x = c := fun e => h (e ▸ List.mem_cons_self x xs)
    have ih := splitFirstChar_append c xs ys (fun m => h (List.mem_cons_of_mem x m))
    simp [splitFirstChar, hx, ih]

theorem splitOnChar_joinChar (c : Char) : ∀ l : List PyStr, l ≠ [] →
    (∀ s ∈ l, c ∉ s) → splitOnChar c (joinChar c l) = l
  | [], h, _ => absurd rfl h
  | [s], _, h => by
    simpa [joinChar] using splitOnChar_eq_single c s (h s (by simp))
  | s :: t :: rest, _, h => by
    have ih := splitOnChar_joinChar c (t :: rest) (by simp)
      (fun u hu => h u (List.mem_cons_of_mem s hu))
    have hshape : joinChar c (s :: t :: rest) = s ++ c :: joinChar c (t :: rest) := rfl
    rw [hshape, splitOnChar_append c s _ (h s (by simp)), ih]

theorem unquote_eq_self {s : PyStr} (h : '%' ∉ s) : unquote s = s := by
  rw [unquote, splitOnChar_eq_single '%' s h]
  simp

theorem digitChar_isDigit (m : Nat) (hm : m < 10) :
    (Char.ofNat (48 + m)).isDigit = true := by
  interval_cases m <;> decide

theorem natCharsAux_digits : ∀ (fuel n : Nat) (acc : List Char),
    (∀ ch ∈ acc, ch.isDigit = true) → ∀ ch ∈ natCharsAux fuel n acc, ch.isDigit = true
  | 0, _, _, hacc => hacc
  | fuel + 1, n, acc, hacc => by
    have hcons : ∀ ch ∈ Char.ofNat (48 + n % 10) :: acc, ch.isDigit = true := by
      intro ch hch
      rcases List.mem_cons.1 hch with rfl | hin
      · exact digitChar_isDigit _ (Nat.mod_lt _ (by omega))
      · exact hacc _ hin
    rw [natCharsAux]
    split
    · exact hcons
    · exact natCharsAux_digits fuel (n / 10) _ hcons

theorem natChars_digits (n : Nat) : ∀ ch ∈ natChars n, ch.isDigit = true :=
  natCharsAux_digits (n + 1) n [] (by simp)

theorem intChars_nonneg (i : Int) (h : ¬ i < 0) : intChars i = natChars i.natAbs := by
  rw [intChars, if_neg h]

theorem intChars_digits (i : Int) (h : ¬ i < 0) :
    ∀ ch ∈ intChars i, ch.isDigit = true := by
  rw [intChars_nonneg i h]
  exact natChars_digits i.natAbs

theorem not_mem_of_digits {l : PyStr} (hd : ∀ ch ∈ l, ch.isDigit = true)
    {bad : Char} (hb : ¬ bad.isDigit = true) : bad ∉ l :=
  fun hm => hb (hd bad hm)

theorem toPair_eq_none (x : List PyStr) : toPair x = none ↔ x.length ≠ 2 := by
  rcases x with _ | ⟨a, _ | ⟨b, _ | ⟨c, t⟩⟩⟩ <;> simp [toPair]

theorem pairsOf_eq_none (l : List (List PyStr)) :
    pairsOf l = none ↔ ∃ x ∈ l, x.length ≠ 2 := by
  induction l with
  | nil => simp [pairsOf]
  | cons x xs ih =>
    cases htp : toPair x with
    | none =>
      simp only [pairsOf, htp]
      constructor
      · intro _
        exact ⟨x, List.mem_cons_self x xs, (toPair_eq_none x).1 htp⟩
      · intro _
        cases hps : pairsOf xs <;> trivial
    | some p =>
      cases hps : pairsOf xs with
      | none =>
        simp only [pairsOf, htp, hps]
        constructor
        · intro _
          obtain ⟨y, hy, hlen⟩ := ih.1 hps
          exact ⟨y, List.mem_cons_of_mem x hy, hlen⟩
        · intro _
          trivial
      | some ps =>
        simp only [pairsOf, htp, hps]
        constructor
        · intro hcon
          exact absurd hcon (by simp)
        · rintro ⟨y, hy, hlen⟩
          rcases List.mem_cons.1 hy with rfl | hy2
          · rw [(toPair_eq_none y).2 hlen] at htp
            exact Option.noConfusion htp
          · rw [(ih.2 ⟨y, hy2, hlen⟩ : pairsOf xs = none)] at hps
            exact Option.noConfusion hps

theorem pyDict_pair (k1 k2 : PyStr) (v1 v2 : PyStr) (h12 : k1 ≠ k2) :
    pyDict [(k1, v1), (k2, v2)] = [(k1, v1), (k2, v2)] := by
  simp [pyDict, pyDictInsert, h12]

theorem pyDict_triple (k1 k2 k3 : PyStr) (v1 v2 v3 : PyStr)
    (h12 : k1 ≠ k2) (h13 : k1 ≠ k3) (h23 : k2 ≠ k3) :
    pyDict [(k1, v1), (k2, v2), (k3, v3)] = [(k1, v1), (k2, v2), (k3, v3)] := by
  simp [pyDict, pyDictInsert, h12, h13, h23]

theorem parse_segText_mode (opname : PyStr) (w h : Int) (mode : PyStr)
    (hop1 : ',' ∉ opname) (hop2 : '%' ∉ opname)
    (hw : ¬ w < 0) (hh : ¬ h < 0)
    (hm0 : mode ≠ []) (hm1 : ',' ∉ mode) (hm2 : '_' ∉ mode) (hm3 : '%' ∉ mode) :
    parse_command (segText opname w h mode) =
      .ok (opname,
        [(pystr "w", intChars w), (pystr "h", intChars h), (pystr "m", mode)]) := by
  have hwd := intChars_digits w hw
  have hhd := intChars_digits h hh
  have hwcomma : ',' ∉ intChars w := not_mem_of_digits hwd (by decide)
  have hwund : '_' ∉ intChars w := not_mem_of_digits hwd (by decide)
  have hwpct : '%' ∉ intChars w := not_mem_of_digits hwd (by decide)
  have hhcomma : ',' ∉ intChars h := not_mem_of_digits hhd (by decide)
  have hhund : '_' ∉ intChars h := not_mem_of_digits hhd (by decide)
  have hhpct : '%' ∉ intChars h := not_mem_of_digits hhd (by decide)
  have hshape : segText opname w h mode =
      opname ++ ',' :: (('w' :: '_' :: intChars w) ++
        ',' :: (('h' :: '_' :: intChars h) ++ ',' :: ('m' :: '_' :: mode))) := by
    rw [segText, if_neg hm0]
    rfl
  have hwtokp : '%' ∉ ('w' :: '_' :: intChars w) :=
    pychar_not_mem_cons (by decide) (pychar_not_mem_cons (by decide) hwpct)
  have hhtokp : '%' ∉ ('h' :: '_' :: intChars h) :=
    pychar_not_mem_cons (by decide) (pychar_not_mem_cons (by decide) hhpct)
  have hmtokp : '%' ∉ ('m' :: '_' :: mode) :=
    pychar_not_mem_cons (by decide) (pychar_not_mem_cons (by decide) hm3)
  have hpct : '%' ∉ segText opname w h mode := by
    rw [hshape]
    exact pychar_not_mem_append hop2 (pychar_not_mem_cons (by decide)
      (pychar_not_mem_append hwtokp (pychar_not_mem_cons (by decide)
        (pychar_not_mem_append hhtokp (pychar_not_mem_cons (by decide) hmtokp)))))
  have hwtokc : ',' ∉ ('w' :: '_' :: intChars w) :=
    pychar_not_mem_cons (by decide) (pychar_not_mem_cons (by decide) hwcomma)
  have hhtokc : ',' ∉ ('h' :: '_' :: intChars h) :=
    pychar_not_mem_cons (by decide) (pychar_not_mem_cons (by decide) hhcomma)
  have hmtokc : ',' ∉ ('m' :: '_' :: mode) :=
    pychar_not_mem_cons (by decide) (pychar_not_mem_cons (by decide) hm1)
  rw [parse_command, unquote_eq_self hpct, hshape,
    splitFirstChar_append ',' opname _ hop1]
  have hsplit : splitOnChar ',' (('w' :: '_' :: intChars w) ++
      ',' :: (('h' :: '_' :: intChars h) ++ ',' :: ('m' :: '_' :: mode))) =
      [('w' :: '_' :: intChars w), ('h' :: '_' :: intChars h), ('m' :: '_' :: mode)] := by
    rw [splitOnChar_append ',' _ _ hwtokc, splitOnChar_append ',' _ _ hhtokc,
      splitOnChar_eq_single ',' _ hmtokc]
  dsimp only
  rw [hsplit]
  have hsw : splitOnChar '_' ('w' :: '_' :: intChars w) = [['w'], intChars w] := by
    have e : ('w' :: '_' :: intChars w) = ['w'] ++ '_' :: intChars w := rfl
    rw [e, splitOnChar_append '_' _ _ (by decide), splitOnChar_eq_single '_' _ hwund]
  have hsh : splitOnChar '_' ('h' :: '_' :: intChars h) = [['h'], intChars h] := by
    have e : ('h' :: '_' :: intChars h) = ['h'] ++ '_' :: intChars h := rfl
    rw [e, splitOnChar_append '_' _ _ (by decide), splitOnChar_eq_single '_' _ hhund]
  have hsm : splitOnChar '_' ('m' :: '_' :: mode) = [['m'], mode] := by
    have e : ('m' :: '_' :: mode) = ['m'] ++ '_' :: mode := rfl
    rw [e, splitOnChar_append '_' _ _ (by decide), splitOnChar_eq_single '_' _ hm2]
  simp only [List.map_cons, List.map_nil, hsw, hsh, hsm, pairsOf, toPair]
  rw [pyDict_triple _ _ _ _ _ _ (by decide) (by decide) (by decide)]
  rfl

theorem parse_segText_nomode (opname : PyStr) (w h : Int)
    (hop1 : ',' ∉ opname) (hop2 : '%' ∉ opname)
    (hw : ¬ w < 0) (hh : ¬ h < 0) :
    parse_command (segText opname w h []) =
      .ok (opname, [(pystr "w", intChars w), (pystr "h", intChars h)]) := by
  have hwd := intChars_digits w hw
  have hhd := intChars_digits h hh
  have hwcomma : ',' ∉ intChars w := not_mem_of_digits hwd (by decide)
  have hwund : '_' ∉ intChars w := not_mem_of_digits hwd (by decide)
  have hwpct : '%' ∉ intChars w := not_mem_of_digits hwd (by decide)
  have hhcomma : ',' ∉ intChars h := not_mem_of_digits hhd (by decide)
  have hhund : '_' ∉ intChars h := not_mem_of_digits hhd (by decide)
  have hhpct : '%' ∉ intChars h := not_mem_of_digits hhd (by decide)
  have hshape : segText opname w h [] =
      opname ++ ',' :: (('w' :: '_' :: intChars w) ++
        ',' :: ('h' :: '_' :: intChars h)) := by
    rw [segText, if_pos rfl]
    rfl
  have hwtokp : '%' ∉ ('w' :: '_' :: intChars w) :=
    pychar_not_mem_cons (by decide) (pychar_not_mem_cons (by decide) hwpct)
  have hhtokp : '%' ∉ ('h' :: '_' :: intChars h) :=
    pychar_not_mem_cons (by decide) (pychar_not_mem_cons (by decide) hhpct)
  have hpct : '%' ∉ segText opname w h [] := by
    rw [hshape]
    exact pychar_not_mem_append hop2 (pychar_not_mem_cons (by decide)
      (pychar_not_mem_append hwtokp (pychar_not_mem_cons (by decide) hhtokp)))
  have hwtokc : ',' ∉ ('w' :: '_' :: intChars w) :=
    pychar_not_mem_cons (by decide) (pychar_not_mem_cons (by decide) hwcomma)
  have hhtokc : ',' ∉ ('h' :: '_' :: intChars h) :=
    pychar_not_mem_cons (by decide) (pychar_not_mem_cons (by decide) hhcomma)
  rw [parse_command, unquote_eq_self hpct, hshape,
    splitFirstChar_append ',' opname _ hop1]
  have hsplit : splitOnChar ',' (('w' :: '_' :: intChars w) ++
      ',' :: ('h' :: '_' :: intChars h)) =
      [('w' :: '_' :: intChars w), ('h' :: '_' :: intChars h)] := by
    rw [splitOnChar_append ',' _ _ hwtokc, splitOnChar_eq_single ',' _ hhtokc]
  dsimp only
  rw [hsplit]
  have hsw : splitOnChar '_' ('w' :: '_' :: intChars w) = [['w'], intChars w] := by
    have e : ('w' :: '_' :: intChars w) = ['w'] ++ '_' :: intChars w := rfl
    rw [e, splitOnChar_append '_' _ _ (by decide), splitOnChar_eq_single '_' _ hwund]
  have hsh : splitOnChar '_' ('h' :: '_' :: intChars h) = [['h'], intChars h] := by
    have e : ('h' :: '_' :: intChars h) = ['h'] ++ '_' :: intChars h := rfl
    rw [e, splitOnChar_append '_' _ _ (by decide), splitOnChar_eq_single '_' _ hhund]
  simp only [List.map_cons, List.map_nil, hsw, hsh, pairsOf, toPair]
  rw [pyDict_pair _ _ _ _ (by decide)]
  rfl

theorem applyStep_commands (c : TransformationCommand) (s : BuildStep) :
    (applyStep c s).commands = c.commands ++ [stepSeg s] := by
  cases s with
  | thumbnail w h m =>
    by_cases hm : m = [] <;>
      simp [applyStep, TransformationCommand.thumbnail, stepSeg, segText,
        stepOp, stepW, stepH, stepMode, hm]
  | resize w h m =>
    by_cases hm : m = [] <;>
      simp [applyStep, TransformationCommand.resize, stepSeg, segText,
        stepOp, stepW, stepH, stepMode, hm]
  | fit w h m =>
    by_cases hm : m = [] <;>
      simp [applyStep, TransformationCommand.fit, stepSeg, segText,
        stepOp, stepW, stepH, stepMode, hm]

theorem foldl_applyStep_commands : ∀ (steps : List BuildStep) (c : TransformationCommand),
    (steps.foldl applyStep c).commands = c.commands ++ steps.map stepSeg
  | [], c => by simp
  | s :: rest, c => by
    rw [List.foldl_cons, foldl_applyStep_commands rest (applyStep c s),
      applyStep_commands, List.map_cons]
    simp

theorem buildChain_commands (steps : List BuildStep) :
    (buildChain steps).commands = steps.map stepSeg := by
  simpa using foldl_applyStep_commands steps ⟨[]⟩

theorem slash_not_mem_segText (opname : PyStr) (w h : Int) (mode : PyStr)
    (hop : '/' ∉ opname) (hw : ¬ w < 0) (hh : ¬ h < 0) (hmode : '/' ∉ mode) :
    '/' ∉ segText opname w h mode := by
  have hwd : '/' ∉ intChars w := not_mem_of_digits (intChars_digits w hw) (by decide)
  have hhd : '/' ∉ intChars h := not_mem_of_digits (intChars_digits h hh) (by decide)
  by_cases hm : mode = []
  · have hshape : segText opname w h [] =
        opname ++ ',' :: (('w' :: '_' :: intChars w) ++ ',' :: ('h' :: '_' :: intChars h)) := by
      rw [segText, if_pos rfl]
      rfl
    rw [hm, hshape]
    exact pychar_not_mem_append hop (pychar_not_mem_cons (by decide)
      (pychar_not_mem_append
        (pychar_not_mem_cons (by decide) (pychar_not_mem_cons (by decide) hwd))
        (pychar_not_mem_cons (by decide)
          (pychar_not_mem_cons (by decide) (pychar_not_mem_cons (by decide) hhd)))))
  · have hshape : segText opname w h mode =
        opname ++ ',' :: (('w' :: '_' :: intChars w) ++
          ',' :: (('h' :: '_' :: intChars h) ++ ',' :: ('m' :: '_' :: mode))) := by
      rw [segText, if_neg hm]
      rfl
    rw [hshape]
    exact pychar_not_mem_append hop (pychar_not_mem_cons (by decide)
      (pychar_not_mem_append
        (pychar_not_mem_cons (by decide) (pychar_not_mem_cons (by decide) hwd))
        (pychar_not_mem_cons (by decide)
          (pychar_not_mem_append
            (pychar_not_mem_cons (by decide) (pychar_not_mem_cons (by decide) hhd))
            (pychar_not_mem_cons (by decide)
              (pychar_not_mem_cons (by decide)
                (pychar_not_mem_cons (by decide) hmode)))))))

theorem except_error_bind {α β : Type} (e : PyError) (f : α → Except PyError β) :
    (Except.error e >>= f) = Except.error e := rfl

theorem except_ok_bind {α β : Type} (a : α) (f : α → Except PyError β) :
    (Except.ok a >>= f) = f a := rfl

theorem processSegs_fst : ∀ (segs : List PyStr) (image : Img),
    (processSegs image segs).1 = List.foldlM segStep image segs
  | [], _ => rfl
  | c :: rest, image => by
    rw [List.foldlM_cons]
    cases hp : parse_command c with
    | error e => simp [processSegs, segStep, hp, except_error_bind]
    | ok opParams =>
      obtain ⟨op, params⟩ := opParams
      by_cases hin : op ∈ allowed_operations
      · cases hd : dispatchOp image op params with
        | error e => simp [processSegs, segStep, hp, hin, hd, except_error_bind]
        | ok image2 =>
          simp only [processSegs, segStep, hp, hin, hd, if_pos]
          rw [except_ok_bind]
          exact processSegs_fst rest image2
      · simp [processSegs, segStep, hp, hin, except_error_bind]

/-! ## Claim theorems -/

/-- C1: every command chain built only through `thumbnail`, `resize` or
`fit` with positive integer width and height and a valid (nonempty)
filter code serializes so that parsing each slash-separated segment with
`parse_command` recovers exactly the operation name and the `w`, `h`, `m`
parameter map that was appended. -/
theorem claim1_chain_roundtrip (steps : List BuildStep) (hne : steps ≠ [])
    (hval : ∀ s ∈ steps, 0 < stepW s ∧ 0 < stepH s ∧
      stepMode s ∈ [pystr "n", pystr "b", pystr "c", pystr "a"]) :
    (splitOnChar '/' (buildChain steps).render).map parse_command =
      steps.map (fun s => Except.ok (stepExpected s)) := by
  have hne2 : steps.map stepSeg ≠ [] :=
    fun hmap => hne (List.map_eq_nil_iff.mp hmap)
  have hslash : ∀ t ∈ steps.map stepSeg, '/' ∉ t := by
    intro t ht
    obtain ⟨s, hs, rfl⟩ := List.mem_map.1 ht
    obtain ⟨hw, hh, hm⟩ := hval s hs
    have hop : '/' ∉ stepOp s := by cases s <;> simp only [stepOp] <;> decide
    have hmode : '/' ∉ stepMode s := by
      simp only [List.mem_cons, List.not_mem_nil, or_false] at hm
      rcases hm with h | h | h | h <;> rw [h] <;> decide
    exact slash_not_mem_segText _ _ _ _ hop (by omega) (by omega) hmode
  rw [TransformationCommand.render, buildChain_commands,
    splitOnChar_joinChar '/' (steps.map stepSeg) hne2 hslash, List.map_map]
  refine List.map_congr_left ?_
  intro s hs
  obtain ⟨hw, hh, hm⟩ := hval s hs
  have hop1 : ',' ∉ stepOp s := by cases s <;> simp only [stepOp] <;> decide
  have hop2 : '%' ∉ stepOp s := by cases s <;> simp only [stepOp] <;> decide
  simp only [List.mem_cons, List.not_mem_nil, or_false] at hm
  have hmfacts : stepMode s ≠ [] ∧ ',' ∉ stepMode s ∧ '_' ∉ stepMode s ∧
      '%' ∉ stepMode s := by
    rcases hm with h | h | h | h <;> rw [h] <;>
      exact ⟨by decide, by decide, by decide, by decide⟩
  obtain ⟨hm0, hm1, hm2, hm3⟩ := hmfacts
  show parse_command (stepSeg s) = Except.ok (stepExpected s)
  rw [stepSeg, parse_segText_mode _ _ _ _ hop1 hop2 (by omega) (by omega)
    hm0 hm1 hm2 hm3, stepExpected, if_neg hm0]
  rfl

/-- Witness for C1: a concrete two-step chain round-trips. -/
theorem claim1_chain_roundtrip_witness :
    ([BuildStep.thumbnail 128 128 (pystr "n"), BuildStep.resize 100 100 (pystr "n")] ≠
        ([] : List BuildStep)) ∧
      (splitOnChar '/' (buildChain [BuildStep.thumbnail 128 128 (pystr "n"),
          BuildStep.resize 100 100 (pystr "n")]).render).map parse_command =
        [BuildStep.thumbnail 128 128 (pystr "n"),
          BuildStep.resize 100 100 (pystr "n")].map (fun s => Except.ok (stepExpected s)) :=
  ⟨by decide, claim1_chain_roundtrip _ (by decide) (by decide)⟩

/-- C2 is refuted as stated: a token with more than one underscore (which
a split at the first underscore would accept as `("w", "1_2")`) makes
`parse_command` raise an uncaught `ValueError`, and a token with no
underscore raises the same uncaught `ValueError` rather than a
`MalformedParameter`-style client error (`abort404` is the only client
error the function ever raises). -/
theorem claim2_counterexample :
    parse_command (pystr "fit,w_1_2") = .error .valueError ∧
      parse_command (pystr "fit,w_1_2") ≠
        .ok (pystr "fit", [(pystr "w", pystr "1_2")]) ∧
      parse_command (pystr "thumbnail,w128") = .error .valueError ∧
      PyError.valueError ≠ PyError.abort404 := by decide

/-- C2 amended: `parse_command` splits at the first comma into
`(operation, rest)` and aborts with the 404 client error when no comma is
present; it then splits `rest` by commas and each token at every
underscore (not only the first), and the `dict()` step fails — raising an
uncaught `ValueError` instead of a client error — exactly when some token
did not split into two parts (no underscore, or several). -/
theorem claim2_parse_behavior :
    (∀ s : PyStr, '%' ∉ s → ',' ∉ s → parse_command s = .error .abort404) ∧
    (∀ operation rest : PyStr, ',' ∉ operation → '%' ∉ operation → '%' ∉ rest →
      parse_command (operation ++ ',' :: rest) =
        match pairsOf ((splitOnChar ',' rest).map (splitOnChar '_')) with
        | some ps => .ok (operation, pyDict ps)
        | none => .error .valueError) ∧
    (∀ tokens : List (List PyStr),
      pairsOf tokens = none ↔ ∃ t ∈ tokens, t.length ≠ 2) := by
  refine ⟨?_, ?_, pairsOf_eq_none⟩
  · intro s h1 h2
    rw [parse_command, unquote_eq_self h1, splitFirstChar_eq_none ',' s h2]
  · intro operation rest h1 h2 h3
    have hp : '%' ∉ operation ++ ',' :: rest :=
      pychar_not_mem_append h2 (pychar_not_mem_cons (by decide) h3)
    rw [parse_command, unquote_eq_self hp,
      splitFirstChar_append ',' operation rest h1]

/-- Witness for the amended C2 at concrete inputs. -/
theorem claim2_parse_behavior_witness :
    parse_command (pystr "nocomma") = .error .abort404 ∧
      parse_command (pystr "thumbnail" ++ ',' :: pystr "w_128,h_64") =
        (match pairsOf ((splitOnChar ',' (pystr "w_128,h_64")).map (splitOnChar '_')) with
         | some ps => .ok (pystr "thumbnail", pyDict ps)
         | none => .error .valueError) ∧
      (∃ t ∈ ((splitOnChar ',' (pystr "w_1_2")).map (splitOnChar '_')),
        t.length ≠ 2) :=
  ⟨claim2_parse_behavior.1 _ (by decide) (by decide),
   claim2_parse_behavior.2.1 _ _ (by decide) (by decide) (by decide),
   (claim2_parse_behavior.2.2 _).1 (by decide)⟩

/-- C3: every operation method the transform loop actually invokes is in
`allowed_operations`, and a structurally well-formed segment whose
operation is outside that set makes the loop abort with the 404 client
error before invoking anything. -/
theorem claim3_dispatch_guard :
    (∀ (image : Img) (segs : List PyStr) (op : PyStr),
      op ∈ (processSegs image segs).2 → op ∈ allowed_operations) ∧
    (∀ (image : Img) (c : PyStr) (rest : List PyStr) (op : PyStr)
      (params : List (PyStr × PyStr)), parse_command c = .ok (op, params) →
      op ∉ allowed_operations →
      processSegs image (c :: rest) = (.error .abort404, [])) := by
  constructor
  · intro image segs
    induction segs generalizing image with
    | nil => intro op hop; simp [processSegs] at hop
    | cons c rest ih =>
      intro op hop
      revert hop
      cases hp : parse_command c with
      | error e => simp [processSegs, hp]
      | ok opParams =>
        obtain ⟨op2, params⟩ := opParams
        by_cases hin : op2 ∈ allowed_operations
        · cases hd : dispatchOp image op2 params with
          | error e =>
            simp only [processSegs, hp, hd, if_pos hin, List.mem_singleton]
            rintro rfl
            exact hin
          | ok image2 =>
            simp only [processSegs, hp, hd, if_pos hin, List.mem_cons]
            rintro (rfl | hmem)
            · exact hin
            · exact ih image2 op hmem
        · simp [processSegs, hp, hin]
  · intro image c rest op params hp hin
    simp [processSegs, hp, hin]

/-- Witness for C3: a `rotate` segment aborts and invokes nothing. -/
theorem claim3_dispatch_guard_witness :
    (pystr "rotate" ∈ (processSegs ⟨200, 400, []⟩ [pystr "rotate,w_10,h_10"]).2 →
      pystr "rotate" ∈ allowed_operations) ∧
    processSegs ⟨200, 400, []⟩ [pystr "rotate,w_10,h_10"] = (.error .abort404, []) :=
  ⟨claim3_dispatch_guard.1 ⟨200, 400, []⟩ [pystr "rotate,w_10,h_10"] (pystr "rotate"),
   claim3_dispatch_guard.2 ⟨200, 400, []⟩ (pystr "rotate,w_10,h_10") [] (pystr "rotate")
     [(pystr "w", pystr "10"), (pystr "h", pystr "10")] (by decide) (by decide)⟩

/-- C4 is refuted as stated: a width that is not an integer literal makes
the transform pipeline raise an uncaught `ValueError` (a server
exception), not a not-found-class client error; and no `InvalidDimension`
check exists anywhere in the pipeline. -/
theorem claim4_counterexample :
    transform_inner ⟨some (200, 400)⟩ (pystr "resize,w_abc,h_10") (pystr "png") =
        .error .valueError ∧
      PyError.valueError ≠ PyError.abort404 := by decide

/-- C4 amended: an unknown operation or a comma-less segment does surface
as the `abort(404)` client error, but a width or height that is not an
integer literal raises an uncaught `ValueError` from `int()`; dimensions
are never range-checked (there is no `InvalidDimension`), non-positive
integers included. -/
theorem claim4_error_surface (b : PyBytes) (w0 h0 : Nat)
    (hb : b.decodesTo = some (w0, h0)) :
    transform_inner b (pystr "rotate,w_10,h_10") (pystr "png") = .error .abort404 ∧
    transform_inner b (pystr "nocomma") (pystr "png") = .error .abort404 ∧
    transform_inner b (pystr "resize,w_abc,h_10") (pystr "png") = .error .valueError ∧
    pyIntOfStr (pystr "abc") = .error .valueError := by
  have hopen : pilImageOpen b = .ok ⟨w0, h0, []⟩ := by
    rw [pilImageOpen, hb]
  refine ⟨?_, ?_, ?_, by decide⟩ <;> simp only [transform_inner, hopen] <;> rfl

/-- Witness for the amended C4 at a concrete master. -/
theorem claim4_error_surface_witness :
    (PyBytes.mk (some (200, 400))).decodesTo = some (200, 400) ∧
      (transform_inner ⟨some (200, 400)⟩ (pystr "rotate,w_10,h_10") (pystr "png") =
          .error .abort404 ∧
        transform_inner ⟨some (200, 400)⟩ (pystr "nocomma") (pystr "png") =
          .error .abort404 ∧
        transform_inner ⟨some (200, 400)⟩ (pystr "resize,w_abc,h_10") (pystr "png") =
          .error .valueError ∧
        pyIntOfStr (pystr "abc") = .error .valueError) :=
  ⟨rfl, claim4_error_surface _ 200 400 rfl⟩

/-- C5: when the master has a recorded write date `T`, the route serves
the cached file without re-rendering exactly when the file exists with
modification time at least `T`; a missing file (Miss) or an older file
(Stale) forces a re-render, and a fresh file is served with no rendering
at all. -/
theorem claim5_cache_freshness (ctx : RequestCtx) (T : Int)
    (hT : ctx.write_date = some T) (hmk : ctx.mkdirResult = .ok) :
    (renderNeeded ctx = false ↔ (ctx.fileExists = true ∧ T ≤ ctx.fileMtime)) ∧
    (ctx.fileExists = false → renderNeeded ctx = true) ∧
    (ctx.fileExists = true → ctx.fileMtime < T → renderNeeded ctx = true) ∧
    (∀ commands extension, renderNeeded ctx = true →
      transform_route ctx commands extension =
        match transform_inner ctx.file_binary commands extension with
        | .error e => .error e
        | .ok out => .ok ⟨true, some out⟩) ∧
    (∀ commands extension, renderNeeded ctx = false →
      transform_route ctx commands extension = .ok ⟨false, none⟩) := by
  have hrn : renderNeeded ctx =
      (if ctx.fileExists then decide (ctx.fileMtime < T) else true) := by
    rw [renderNeeded, hT]
    cases ctx.fileExists <;> simp
  refine ⟨?_, ?_, ?_, ?_, ?_⟩
  · rw [hrn]
    cases hfe : ctx.fileExists <;> simp
  · intro hfe
    rw [hrn, hfe]
    simp
  · intro hfe hlt
    rw [hrn, hfe]
    simpa using hlt
  · intro commands extension hren
    simp only [transform_route, transform_route_body, hmk, hren, if_true]
  · intro commands extension hren
    simp only [transform_route, transform_route_body, hmk, hren]
    simp

/-- Witness for C5: a fresh cached file (mtime 10 against write date 5)
is served without rendering. -/
theorem claim5_cache_freshness_witness :
    (RequestCtx.mk .ok true 10 (some 5) ⟨some (1, 1)⟩).write_date = some 5 ∧
      transform_route (RequestCtx.mk .ok true 10 (some 5) ⟨some (1, 1)⟩)
        (pystr "resize,w_10,h_10") (pystr "png") = .ok ⟨false, none⟩ :=
  ⟨rfl, (claim5_cache_freshness _ 5 rfl rfl).2.2.2.2 _ _ (by decide)⟩

/-- C6: the rendition pipeline opens the master bytes once, folds the
segment steps left to right over the decoded image, encodes the final
image once with the requested extension, and is deterministic in its
three inputs. -/
theorem claim6_pipeline_fold :
    (∀ (fb : PyBytes) (commands extension : PyStr),
      transform_inner fb commands extension =
        match pilImageOpen fb with
        | .error e => .error e
        | .ok image =>
          match List.foldlM segStep image (splitOnChar '/' commands) with
          | .error e => .error e
          | .ok image2 => .ok (image2, extension)) ∧
    (∀ (fb fb2 : PyBytes) (c c2 e e2 : PyStr), fb = fb2 → c = c2 → e = e2 →
      transform_inner fb c e = transform_inner fb2 c2 e2) := by
  constructor
  · intro fb commands extension
    cases h : pilImageOpen fb with
    | error e => simp only [transform_inner, h]
    | ok image => simp only [transform_inner, h, processSegs_fst]
  · intro fb fb2 c c2 e e2 h1 h2 h3
    rw [h1, h2, h3]

/-- Witness for C6 at a concrete master and chain. -/
theorem claim6_pipeline_fold_witness :
    (transform_inner ⟨some (200, 400)⟩ (pystr "fit,w_100,h_100") (pystr "png") =
      match pilImageOpen ⟨some (200, 400)⟩ with
      | .error e => .error e
      | .ok image =>
        match List.foldlM segStep image (splitOnChar '/' (pystr "fit,w_100,h_100")) with
        | .error e => .error e
        | .ok image2 => .ok (image2, pystr "png")) ∧
    transform_inner ⟨some (200, 400)⟩ (pystr "fit,w_100,h_100") (pystr "png") =
      transform_inner ⟨some (200, 400)⟩ (pystr "fit,w_100,h_100") (pystr "png") :=
  ⟨claim6_pipeline_fold.1 _ _ _, claim6_pipeline_fold.2 _ _ _ _ _ _ rfl rfl rfl⟩

/-- C7: the resolved extension of a URL builder is the explicit extension
argument when a nonempty one is given, else the nonempty file extension
of the master filename, else `png`. -/
theorem claim7_extension_resolution (extension : Option PyStr) (name : PyStr) :
    (∀ e, extension = some e → e ≠ [] → resolved_extension extension name = e) ∧
    ((extension = none ∨ extension = some []) →
      ((splitext_ext name).drop 1 ≠ [] →
        resolved_extension extension name = (splitext_ext name).drop 1) ∧
      ((splitext_ext name).drop 1 = [] →
        resolved_extension extension name = pystr "png")) := by
  constructor
  · rintro e rfl he
    simp [resolved_extension, he]
  · intro hcase
    have hred : resolved_extension extension name =
        (if (splitext_ext name).drop 1 ≠ [] then (splitext_ext name).drop 1
         else pystr "png") := by
      rcases hcase with rfl | rfl <;> simp only [resolved_extension] <;>
        rw [if_neg (by simp)]
    refine ⟨fun h => ?_, fun h => ?_⟩
    · rw [hred, if_pos h]
    · rw [hred, if_neg (fun hc => hc h)]

/-- Witness for C7 at concrete extensions and filenames. -/
theorem claim7_extension_resolution_witness :
    resolved_extension (some (pystr "gif")) (pystr "photo.jpg") = pystr "gif" ∧
      resolved_extension none (pystr "photo.jpg") = pystr "jpg" ∧
      resolved_extension none (pystr "photo") = pystr "png" :=
  ⟨(claim7_extension_resolution (some (pystr "gif")) (pystr "photo.jpg")).1 _ rfl
      (by decide),
    ((claim7_extension_resolution none (pystr "photo.jpg")).2 (Or.inl rfl)).1 (by decide),
    ((claim7_extension_resolution none (pystr "photo")).2 (Or.inl rfl)).2 (by decide)⟩

/-- C8: cache directory creation treats the errno-17 "already exists"
failure as success (the request proceeds exactly as on successful
creation), while any other makedirs error propagates as a fatal error. -/
theorem claim8_mkdir (ctx : RequestCtx) (commands extension : PyStr) :
    (ctx.mkdirResult = .oserror 17 →
      transform_route ctx commands extension =
        transform_route_body ctx commands extension) ∧
    (ctx.mkdirResult = .ok →
      transform_route ctx commands extension =
        transform_route_body ctx commands extension) ∧
    (∀ e, e ≠ 17 → ctx.mkdirResult = .oserror e →
      transform_route ctx commands extension = .error (.osError e)) := by
  refine ⟨?_, ?_, ?_⟩
  · intro h
    simp [transform_route, h]
  · intro h
    simp [transform_route, h]
  · intro e he h
    simp [transform_route, h, he]

/-- Witness for C8: errno 17 proceeds, errno 13 propagates. -/
theorem claim8_mkdir_witness :
    transform_route (RequestCtx.mk (.oserror 17) false 0 (some 5) ⟨some (1, 1)⟩)
        (pystr "nocomma") (pystr "png") =
      transform_route_body (RequestCtx.mk (.oserror 17) false 0 (some 5) ⟨some (1, 1)⟩)
        (pystr "nocomma") (pystr "png") ∧
    transform_route (RequestCtx.mk (.oserror 13) false 0 (some 5) ⟨some (1, 1)⟩)
        (pystr "nocomma") (pystr "png") = .error (.osError 13) :=
  ⟨(claim8_mkdir _ _ _).1 rfl,
   (claim8_mkdir _ _ _).2.2 13 (by decide) rfl⟩

/-- C9: on a nonempty image with positive targets, `thumbnail` never
upscales (both result dimensions stay within the original) and rescales
both dimensions by one common ratio at most one (aspect preservation up
to the flooring of pixel counts), while `fit` always returns exactly the
requested dimensions. -/
theorem claim9_geometry (img : Img) (tw th : Int) (f : PILFilter)
    (h1 : 1 ≤ img.width) (h2 : 1 ≤ img.height) (h3 : 0 < tw) (h4 : 0 < th) :
    ((img.pil_thumbnail tw th f).width ≤ img.width ∧
      (img.pil_thumbnail tw th f).height ≤ img.height) ∧
    (∃ num den : Nat, 0 < den ∧ num ≤ den ∧
      (img.pil_thumbnail tw th f).width = max (img.width * num / den) 1 ∧
      (img.pil_thumbnail tw th f).height = max (img.height * num / den) 1) ∧
    ((img.pil_fit tw th f).width = tw.toNat ∧
      (img.pil_fit tw th f).height = th.toNat) := by
  have hw0 : 0 < img.width := h1
  have hh0 : 0 < img.height := h2
  have htw2 : 1 ≤ tw.toNat := by omega
  have hth2 : 1 ≤ th.toNat := by omega
  refine ⟨?_, ?_, rfl, rfl⟩ <;>
    by_cases hA : img.width ≤ tw.toNat ∧ img.height ≤ th.toNat
  · have hwr : (img.pil_thumbnail tw th f).width = img.width := by
      simp [Img.pil_thumbnail, hA]
    have hhr : (img.pil_thumbnail tw th f).height = img.height := by
      simp [Img.pil_thumbnail, hA]
    rw [hwr, hhr]
    exact ⟨le_refl _, le_refl _⟩
  · by_cases hB : tw.toNat * img.height ≤ th.toNat * img.width
    · have hwr : (img.pil_thumbnail tw th f).width = tw.toNat := by
        simp [Img.pil_thumbnail, hA, hB]
      have hhr : (img.pil_thumbnail tw th f).height =
          max (img.height * tw.toNat / img.width) 1 := by
        simp [Img.pil_thumbnail, hA, hB]
      have htww : tw.toNat ≤ img.width := by
        by_contra hcon
        push_neg at hcon
        rcases not_and_or.mp hA with hna | hnb
        · omega
        · push_neg at hnb
          have e1 : (img.width + 1) * img.height ≤ tw.toNat * img.height :=
            Nat.mul_le_mul_right _ hcon
          have e2 : (th.toNat + 1) * img.width ≤ img.height * img.width :=
            Nat.mul_le_mul_right _ hnb
          rw [Nat.succ_mul] at e1 e2
          have e5 : img.width * img.height + img.height ≤ th.toNat * img.width :=
            le_trans e1 hB
          have e6 : th.toNat * img.width + img.width ≤ img.width * img.height := by
            rw [Nat.mul_comm img.height img.width] at e2
            exact e2
          linarith
      have hdiv : img.height * tw.toNat / img.width ≤ img.height := by
        calc img.height * tw.toNat / img.width
            ≤ img.height * img.width / img.width :=
              Nat.div_le_div_right (Nat.mul_le_mul_left _ htww)
          _ = img.height := Nat.mul_div_cancel img.height hw0
      rw [hwr, hhr]
      exact ⟨htww, max_le hdiv h2⟩
    · have hwr : (img.pil_thumbnail tw th f).width =
          max (img.width * th.toNat / img.height) 1 := by
        simp [Img.pil_thumbnail, hA, hB]
      have hhr : (img.pil_thumbnail tw th f).height = th.toNat := by
        simp [Img.pil_thumbnail, hA, hB]
      push_neg at hB
      have hthh : th.toNat ≤ img.height := by
        by_contra hcon
        push_neg at hcon
        rcases not_and_or.mp hA with hna | hnb
        · push_neg at hna
          have e1 : (img.height + 1) * img.width ≤ th.toNat * img.width :=
            Nat.mul_le_mul_right _ hcon
          have e2 : (tw.toNat + 1) * img.height ≤ img.width * img.height :=
            Nat.mul_le_mul_right _ hna
          rw [Nat.succ_mul] at e1 e2
          have e6 : tw.toNat * img.height + img.height ≤ img.width * img.height := e2
          have hcomm : img.height * img.width = img.width * img.height :=
            Nat.mul_comm _ _
          linarith
        · omega
      have hdiv : img.width * th.toNat / img.height ≤ img.width := by
        calc img.width * th.toNat / img.height
            ≤ img.width * img.height / img.height :=
              Nat.div_le_div_right (Nat.mul_le_mul_left _ hthh)
          _ = img.width := Nat.mul_div_cancel img.width hh0
      rw [hwr, hhr]
      exact ⟨max_le hdiv h1, hthh⟩
  · refine ⟨1, 1, Nat.one_pos, le_refl 1, ?_, ?_⟩ <;>
      simp [Img.pil_thumbnail, hA, Nat.max_eq_left, h1, h2]
  · by_cases hB : tw.toNat * img.height ≤ th.toNat * img.width
    · have htww : tw.toNat ≤ img.width := by
        by_contra hcon
        push_neg at hcon
        rcases not_and_or.mp hA with hna | hnb
        · omega
        · push_neg at hnb
          have e1 : (img.width + 1) * img.height ≤ tw.toNat * img.height :=
            Nat.mul_le_mul_right _ hcon
          have e2 : (th.toNat + 1) * img.width ≤ img.height * img.width :=
            Nat.mul_le_mul_right _ hnb
          rw [Nat.succ_mul] at e1 e2
          have e5 : img.width * img.height + img.height ≤ th.toNat * img.width :=
            le_trans e1 hB
          have e6 : th.toNat * img.width + img.width ≤ img.width * img.height := by
            rw [Nat.mul_comm img.height img.width] at e2
            exact e2
          linarith
      refine ⟨tw.toNat, img.width, hw0, htww, ?_, ?_⟩
      · have hwr : (img.pil_thumbnail tw th f).width = tw.toNat := by
          simp [Img.pil_thumbnail, hA, hB]
        rw [hwr, Nat.mul_div_cancel_left _ hw0]
        omega
      · simp [Img.pil_thumbnail, hA, hB]
    · have hthh : th.toNat ≤ img.height := by
        by_contra hcon
        push_neg at hcon
        push_neg at hB
        rcases not_and_or.mp hA with hna | hnb
        · push_neg at hna
          have e1 : (img.height + 1) * img.width ≤ th.toNat * img.width :=
            Nat.mul_le_mul_right _ hcon
          have e2 : (tw.toNat + 1) * img.height ≤ img.width * img.height :=
            Nat.mul_le_mul_right _ hna
          rw [Nat.succ_mul] at e1 e2
          have hcomm : img.height * img.width = img.width * img.height :=
            Nat.mul_comm _ _
          linarith
        · omega
      refine ⟨th.toNat, img.height, hh0, hthh, ?_, ?_⟩
      · simp [Img.pil_thumbnail, hA, hB]
      · have hhr : (img.pil_thumbnail tw th f).height = th.toNat := by
          simp [Img.pil_thumbnail, hA, hB]
        rw [hhr, Nat.mul_div_cancel_left _ hh0]
        omega

/-- Witness for C9: a 50 by 50 image is never upscaled by a 100 by 100
thumbnail request, and a 100 by 100 fit yields exactly 100 by 100. -/
theorem claim9_geometry_witness :
    (1 ≤ (50 : Nat) ∧ 0 < (100 : Int)) ∧
      (((Img.mk 50 50 []).pil_thumbnail 100 100 .NEAREST).width ≤ 50 ∧
        ((Img.mk 50 50 []).pil_thumbnail 100 100 .NEAREST).height ≤ 50) ∧
      (∃ num den : Nat, 0 < den ∧ num ≤ den ∧
        ((Img.mk 50 50 []).pil_thumbnail 100 100 .NEAREST).width =
          max (50 * num / den) 1 ∧
        ((Img.mk 50 50 []).pil_thumbnail 100 100 .NEAREST).height =
          max (50 * num / den) 1) ∧
      (((Img.mk 50 50 []).pil_fit 100 100 .NEAREST).width = (100 : Int).toNat ∧
        ((Img.mk 50 50 []).pil_fit 100 100 .NEAREST).height = (100 : Int).toNat) :=
  ⟨⟨by decide, by decide⟩,
    claim9_geometry ⟨50, 50, []⟩ 100 100 .NEAREST (by decide) (by decide)
      (by decide) (by decide)⟩

theorem kwargsOk_wh (a b : PyStr) : kwargsOk [(pystr "w", a), (pystr "h", b)] := by
  intro kv hkv
  rcases List.mem_cons.1 hkv with rfl | hkv2
  · exact Or.inl rfl
  rcases List.mem_cons.1 hkv2 with rfl | hkv3
  · exact Or.inr (Or.inl rfl)
  · exact absurd hkv3 (List.not_mem_nil kv)

theorem kwargsOk_whm (a b m : PyStr) :
    kwargsOk [(pystr "w", a), (pystr "h", b), (pystr "m", m)] := by
  intro kv hkv
  rcases List.mem_cons.1 hkv with rfl | hkv2
  · exact Or.inl rfl
  rcases List.mem_cons.1 hkv2 with rfl | hkv3
  · exact Or.inr (Or.inl rfl)
  rcases List.mem_cons.1 hkv3 with rfl | hkv4
  · exact Or.inr (Or.inr rfl)
  · exact absurd hkv4 (List.not_mem_nil kv)

theorem dimArg_w_pair (a b : PyStr) :
    dimArg [(pystr "w", a), (pystr "h", b)] (pystr "w") = pyIntOfStr a := by
  simp only [dimArg, pyGet, if_true]

theorem dimArg_w_triple (a b m : PyStr) :
    dimArg [(pystr "w", a), (pystr "h", b), (pystr "m", m)] (pystr "w") =
      pyIntOfStr a := by
  simp only [dimArg, pyGet, if_true]

theorem dimArg_h_pair (a b : PyStr) :
    dimArg [(pystr "w", a), (pystr "h", b)] (pystr "h") = pyIntOfStr b := by
  simp only [dimArg, pyGet, if_true, if_false,
    show (pystr "w" = pystr "h") = False from by decide]

theorem dimArg_h_triple (a b m : PyStr) :
    dimArg [(pystr "w", a), (pystr "h", b), (pystr "m", m)] (pystr "h") =
      pyIntOfStr b := by
  simp only [dimArg, pyGet, if_true, if_false,
    show (pystr "w" = pystr "h") = False from by decide]

theorem modeArg_pair (a b : PyStr) :
    modeArg [(pystr "w", a), (pystr "h", b)] = pystr "n" := by
  simp only [modeArg, pyGet, if_false,
    show (pystr "w" = pystr "m") = False from by decide,
    show (pystr "h" = pystr "m") = False from by decide]

theorem modeArg_triple (a b m : PyStr) :
    modeArg [(pystr "w", a), (pystr "h", b), (pystr "m", m)] = m := by
  simp only [modeArg, pyGet, if_true, if_false,
    show (pystr "w" = pystr "m") = False from by decide,
    show (pystr "h" = pystr "m") = False from by decide]

theorem nomode_dispatch_eq (image : Img) (opname : PyStr) (a b : PyStr)
    (hop : opname ∈ allowed_operations) :
    dispatchOp image opname [(pystr "w", a), (pystr "h", b)] =
      dispatchOp image opname [(pystr "w", a), (pystr "h", b), (pystr "m", pystr "n")] := by
  have ethumb : nsfThumbnail image [(pystr "w", a), (pystr "h", b)] =
      nsfThumbnail image [(pystr "w", a), (pystr "h", b), (pystr "m", pystr "n")] := by
    simp only [nsfThumbnail, dimArg_w_pair, dimArg_w_triple, dimArg_h_pair,
      dimArg_h_triple, modeArg_pair, modeArg_triple]
  have eresize : nsfResize image [(pystr "w", a), (pystr "h", b)] =
      nsfResize image [(pystr "w", a), (pystr "h", b), (pystr "m", pystr "n")] := by
    simp only [nsfResize, dimArg_w_pair, dimArg_w_triple, dimArg_h_pair,
      dimArg_h_triple, modeArg_pair, modeArg_triple]
  have efit : nsfFit image [(pystr "w", a), (pystr "h", b)] =
      nsfFit image [(pystr "w", a), (pystr "h", b), (pystr "m", pystr "n")] := by
    simp only [nsfFit, dimArg_w_pair, dimArg_w_triple, dimArg_h_pair,
      dimArg_h_triple, modeArg_pair, modeArg_triple]
  simp only [dispatchOp, if_pos (kwargsOk_wh a b),
    if_pos (kwargsOk_whm a b (pystr "n"))]
  simp only [allowed_operations, List.mem_cons, List.not_mem_nil, or_false] at hop
  rcases hop with h | h | h
  · rw [h, if_neg (show ¬ (pystr "resize" = pystr "thumbnail") by decide),
      if_neg (show ¬ (pystr "resize" = pystr "thumbnail") by decide),
      if_pos rfl, if_pos rfl]
    exact eresize
  · rw [h, if_pos rfl, if_pos rfl]
    exact ethumb
  · rw [h, if_neg (show ¬ (pystr "fit" = pystr "thumbnail") by decide),
      if_neg (show ¬ (pystr "fit" = pystr "thumbnail") by decide),
      if_neg (show ¬ (pystr "fit" = pystr "resize") by decide),
      if_neg (show ¬ (pystr "fit" = pystr "resize") by decide),
      if_pos rfl, if_pos rfl]
    exact efit

theorem transform_single_seg (fb : PyBytes) (ext seg1 seg2 : PyStr)
    (h1 : '/' ∉ seg1) (h2 : '/' ∉ seg2)
    (hstep : ∀ image : Img, segStep image seg1 = segStep image seg2) :
    transform_inner fb seg1 ext = transform_inner fb seg2 ext := by
  cases hopen : pilImageOpen fb with
  | error e => simp only [transform_inner, hopen]
  | ok image =>
    simp only [transform_inner, hopen, processSegs_fst]
    rw [splitOnChar_eq_single '/' _ h1, splitOnChar_eq_single '/' _ h2]
    simp only [List.foldlM_cons, List.foldlM_nil, hstep image]

/-- C10: appending `thumbnail`, `resize` or `fit` with the empty filter
mode yields a segment with no `m` token; parsing it yields a parameter
map with no `m` key; dispatch then falls back to the default mode `n`,
so the rendered result equals that of the same operation appended with
mode `n`. -/
theorem claim10_empty_mode (s : BuildStep) (hmode : stepMode s = [])
    (hw : 0 < stepW s) (hh : 0 < stepH s) :
    stepSeg s = stepOp s ++ ',' :: (('w' :: '_' :: intChars (stepW s)) ++
      ',' :: ('h' :: '_' :: intChars (stepH s))) ∧
    parse_command (stepSeg s) =
      .ok (stepOp s,
        [(pystr "w", intChars (stepW s)), (pystr "h", intChars (stepH s))]) ∧
    pyGet [(pystr "w", intChars (stepW s)), (pystr "h", intChars (stepH s))]
      (pystr "m") = none ∧
    (∀ (fb : PyBytes) (extension : PyStr),
      transform_inner fb (stepSeg s) extension =
        transform_inner fb (segText (stepOp s) (stepW s) (stepH s) (pystr "n"))
          extension) := by
  have hop1 : ',' ∉ stepOp s := by cases s <;> simp only [stepOp] <;> decide
  have hop2 : '%' ∉ stepOp s := by cases s <;> simp only [stepOp] <;> decide
  have hopslash : '/' ∉ stepOp s := by cases s <;> simp only [stepOp] <;> decide
  have hin : stepOp s ∈ allowed_operations := by
    cases s <;> simp only [stepOp] <;> decide
  have hseg : stepSeg s = segText (stepOp s) (stepW s) (stepH s) [] := by
    rw [stepSeg, hmode]
  refine ⟨?_, ?_, ?_, ?_⟩
  · rw [hseg, segText, if_pos rfl]
    rfl
  · rw [hseg]
    exact parse_segText_nomode _ _ _ hop1 hop2 (by omega) (by omega)
  · simp only [pyGet, if_false,
      show (pystr "w" = pystr "m") = False from by decide,
      show (pystr "h" = pystr "m") = False from by decide]
  · intro fb extension
    rw [hseg]
    apply transform_single_seg
    · exact slash_not_mem_segText _ _ _ _ hopslash (by omega) (by omega) (by decide)
    · exact slash_not_mem_segText _ _ _ _ hopslash (by omega) (by omega) (by decide)
    · intro image
      simp only [segStep,
        parse_segText_nomode (stepOp s) (stepW s) (stepH s) hop1 hop2
          (by omega) (by omega),
        parse_segText_mode (stepOp s) (stepW s) (stepH s) (pystr "n") hop1 hop2
          (by omega) (by omega) (by decide) (by decide) (by decide) (by decide)]
      rw [if_pos hin, if_pos hin]
      exact nomode_dispatch_eq image (stepOp s) _ _ hin

/-- Witness for C10: a concrete `fit` with empty mode renders the same as
`fit` with mode `n`. -/
theorem claim10_empty_mode_witness :
    (stepMode (BuildStep.fit 100 100 []) = [] ∧
      0 < stepW (BuildStep.fit 100 100 []) ∧ 0 < stepH (BuildStep.fit 100 100 [])) ∧
      transform_inner ⟨some (200, 400)⟩ (stepSeg (BuildStep.fit 100 100 []))
          (pystr "png") =
        transform_inner ⟨some (200, 400)⟩ (segText (pystr "fit") 100 100 (pystr "n"))
          (pystr "png") :=
  ⟨⟨rfl, by decide, by decide⟩,
    (claim10_empty_mode (BuildStep.fit 100 100 []) rfl (by decide) (by decide)).2.2.2
      ⟨some (200, 400)⟩ (pystr "png")⟩

example : parse_command (pystr "thumbnail,w_128,h_128,m_n") =
    .ok (pystr "thumbnail",
      [(pystr "w", pystr "128"), (pystr "h", pystr "128"), (pystr "m", pystr "n")]) := by
  decide

example : parse_command (pystr "nocomma") = .error .abort404 := by decide

example : parse_command (pystr "thumbnail,w128") = .error .valueError := by decide

example : parse_command (pystr "fit,w_1_2") = .error .valueError := by decide

example :
    (((TransformationCommand.mk []).thumbnail 128 128 (pystr "n")).resize 100 100
      (pystr "n")).render = pystr "thumbnail,w_128,h_128,m_n/resize,w_100,h_100,m_n" := by
  decide
